import Mathlib

/-!
Verification of the result-normalization and persistence core of
`quantum_coin_flip.py`: the custom JSON encoder `NumpyEncoder`, the
`output_dict` record, the call
`json.dumps(output_dict, cls=NumpyEncoder, sort_keys=True, indent=4)`
and the single write of the formatted text to the output file.

Numeric scalars are idealized as `Int` (the example data and the spec's
claims only exercise exact integer values; a complex value is a pair of
such scalars and its projection to the real component is exact).
-/

namespace CoinFlip

/-- A key of a Python mapping as it may reach `json.dumps`: either a
string key, or an integer key (accepted by the serializer and coerced to
its decimal representation in the output). -/
inductive JKey where
  | str (s : String)
  | int (n : Int)
deriving DecidableEq

/-- The raw result value tree produced by the backend: JSON primitives,
`np.ndarray` (its elements, in row-major iteration order, as `tolist`
exposes them), `np.bool_`, a complex number (`np.complex` is the builtin
`complex`), ordered sequences, insertion-ordered mappings, and `other`,
a value of a type with no conversion rule, carrying its type name. -/
inductive ResultValue where
  | null
  | bool (b : Bool)
  | num (n : Int)
  | str (s : String)
  | complex (re im : Int)
  | npBool (b : Bool)
  | ndarray (elts : List ResultValue)
  | list (elts : List ResultValue)
  | dict (entries : List (JKey × ResultValue))
  | other (typeName : String)

/-- The JSON-representable subset: primitives, ordered sequences and
string-keyed mappings, serializable with no custom hooks. -/
inductive NormalizedValue where
  | null
  | bool (b : Bool)
  | num (n : Int)
  | str (s : String)
  | list (elts : List NormalizedValue)
  | dict (entries : List (String × NormalizedValue))

/-- Errors of the normalize-then-persist pipeline: `unsupportedValueKind`
is the `TypeError` raised by `json.JSONEncoder.default` naming the
offending type; `unorderableKeys` is the `TypeError` raised by
`sorted` on a mapping whose keys mix strings and integers;
`sinkWriteError` is the `OSError` of an unwritable output sink. -/
inductive PersistError where
  | unsupportedValueKind (typeName : String)
  | unorderableKeys
  | sinkWriteError
deriving DecidableEq

/-- The string a mapping key contributes to the JSON output: a string key
is used as is, an integer key is coerced to its decimal representation. -/
def keyToString : JKey → String
  | .str s => s
  | .int n => toString n

mutual

/-- Value-level transformation performed by `json.dumps` together with
`NumpyEncoder.default` (lines 97-105 of the source): primitives pass
through, `np.ndarray` becomes the sequence of its elements, `np.bool_`
unwraps to `bool`, a complex number projects to its real component,
aggregates recurse, and any other value raises naming its type. -/
def normalize : ResultValue → Except PersistError NormalizedValue
  | .null => .ok .null
  | .bool b => .ok (.bool b)
  | .num n => .ok (.num n)
  | .str s => .ok (.str s)
  | .complex re _ => .ok (.num re)
  | .npBool b => .ok (.bool b)
  | .ndarray es => do .ok (.list (← normalizeList es))
  | .list es => do .ok (.list (← normalizeList es))
  | .dict es => do .ok (.dict (← normalizeEntries es))
  | .other t => .error (.unsupportedValueKind t)

/-- Normalization of the elements of a sequence, in order, stopping at
the first failure. -/
def normalizeList : List ResultValue → Except PersistError (List NormalizedValue)
  | [] => .ok []
  | v :: vs => do .ok ((← normalize v) :: (← normalizeList vs))

/-- Normalization of the entries of a mapping, in insertion order, keys
coerced to strings, stopping at the first failure. -/
def normalizeEntries : List (JKey × ResultValue) → Except PersistError (List (String × NormalizedValue))
  | [] => .ok []
  | (k, v) :: es => do .ok ((keyToString k, (← normalize v)) :: (← normalizeEntries es))

end

mutual

/-- A value is supported when no node of it is of an unhandled type
(no `other` node anywhere). -/
def supported : ResultValue → Bool
  | .null | .bool _ | .num _ | .str _ | .complex _ _ | .npBool _ => true
  | .ndarray es | .list es => supportedList es
  | .dict es => supportedEntries es
  | .other _ => false

def supportedList : List ResultValue → Bool
  | [] => true
  | v :: vs => supported v && supportedList vs

def supportedEntries : List (JKey × ResultValue) → Bool
  | [] => true
  | (_, v) :: es => supported v && supportedEntries es

end

mutual

/-- Some node of the value is an unhandled type whose name is `t`. -/
def occursOther : ResultValue → String → Bool
  | .null, _ | .bool _, _ | .num _, _ | .str _, _ | .complex _ _, _ | .npBool _, _ => false
  | .ndarray es, t | .list es, t => occursOtherList es t
  | .dict es, t => occursOtherEntries es t
  | .other u, t => u = t

def occursOtherList : List ResultValue → String → Bool
  | [], _ => false
  | v :: vs, t => occursOther v t || occursOtherList vs t

def occursOtherEntries : List (JKey × ResultValue) → String → Bool
  | [], _ => false
  | (_, v) :: es, t => occursOther v t || occursOtherEntries es t

end

mutual

/-- Every mapping in the value, at any depth, has string keys only
(the shape the spec's ResultValue data model prescribes). -/
def wellKeys : ResultValue → Bool
  | .null | .bool _ | .num _ | .str _ | .complex _ _ | .npBool _ | .other _ => true
  | .ndarray es | .list es => wellKeysList es
  | .dict es => es.all (fun p => p.1 matches .str _) && wellKeysEntries es

def wellKeysList : List ResultValue → Bool
  | [] => true
  | v :: vs => wellKeys v && wellKeysList vs

def wellKeysEntries : List (JKey × ResultValue) → Bool
  | [] => true
  | (_, v) :: es => wellKeys v && wellKeysEntries es

end

mutual

/-- A normalized value, reread as a raw result value: the inclusion of
the JSON-representable subset into the input domain. -/
def ofNorm : NormalizedValue → ResultValue
  | .null => .null
  | .bool b => .bool b
  | .num n => .num n
  | .str s => .str s
  | .list es => .list (ofNormList es)
  | .dict es => .dict (ofNormEntries es)

def ofNormList : List NormalizedValue → List ResultValue
  | [] => []
  | v :: vs => ofNorm v :: ofNormList vs

def ofNormEntries : List (String × NormalizedValue) → List (JKey × ResultValue)
  | [] => []
  | (k, v) :: es => (.str k, ofNorm v) :: ofNormEntries es

end

/-- Lowercase hexadecimal digit, as Python's `json` emits in escapes. -/
def hexDigit (n : Nat) : Char :=
  if n < 10 then Char.ofNat (48 + n) else Char.ofNat (87 + n)

/-- Four lowercase hexadecimal digits of `n` (`n` below `0x10000`). -/
def hex4 (n : Nat) : String :=
  String.mk [hexDigit (n / 4096 % 16), hexDigit (n / 256 % 16),
             hexDigit (n / 16 % 16), hexDigit (n % 16)]

/-- The `\uXXXX` escape of a code point, as a surrogate pair when it is
outside the basic multilingual plane (`ensure_ascii` behaviour). -/
def uEscape (n : Nat) : String :=
  if n < 65536 then "\\u" ++ hex4 n
  else
    "\\u" ++ hex4 (55296 + (n - 65536) / 1024) ++ "\\u" ++ hex4 (56320 + (n - 65536) % 1024)

/-- The characters a JSON string emits for one input character: short
escapes for the two special characters and the common controls, `\uXXXX`
for every other character outside `0x20`-`0x7e`, the character itself
otherwise. -/
def escChar (c : Char) : String :=
  if c = '"' then "\\\""
  else if c = '\\' then "\\\\"
  else if c = '\n' then "\\n"
  else if c = '\r' then "\\r"
  else if c = '\t' then "\\t"
  else if c = '\x08' then "\\b"
  else if c = '\x0c' then "\\f"
  else if c.toNat < 32 || 126 < c.toNat then uEscape c.toNat
  else String.singleton c

/-- A JSON string literal: the escaped characters between double quotes. -/
def jsonQuote (s : String) : String :=
  "\"" ++ String.join (s.toList.map escChar) ++ "\""

/-- `4 * n` spaces: the indentation prefix at nesting depth `n` under
`indent=4`. -/
def indentStr (n : Nat) : String :=
  String.mk (List.replicate (4 * n) ' ')

/-- Stable insertion of `a` into a sorted list: `a` goes in front of the
first element it is less-or-equal to. -/
def insertLe (le : α → α → Bool) (a : α) : List α → List α
  | [] => [a]
  | b :: bs => if le a b then a :: b :: bs else b :: insertLe le a bs

/-- Stable insertion sort, the order `sorted` produces on the items. -/
def sortLe (le : α → α → Bool) : List α → List α
  | [] => []
  | a :: as => insertLe le a (sortLe le as)

/-- Lexicographic less-or-equal on character lists by code point, the
order Python compares strings with. -/
def charsLe : List Char → List Char → Bool
  | [], _ => true
  | _ :: _, [] => false
  | a :: as, b :: bs => a < b || (a = b && charsLe as bs)

/-- Lexicographic less-or-equal on strings by code point. -/
def strLe (s t : String) : Bool :=
  charsLe s.toList t.toList

/-- Comparison of two string-keyed pairs (both keys assumed `.str`). -/
def keyLeStr (a b : JKey × α) : Bool :=
  match a.1, b.1 with
  | .str s, .str t => strLe s t
  | _, _ => true

/-- Comparison of two integer-keyed pairs (both keys assumed `.int`). -/
def keyLeInt (a b : JKey × α) : Bool :=
  match a.1, b.1 with
  | .int m, .int n => m ≤ n
  | _, _ => true

/-- The `sort_keys=True` step on one mapping: `sorted(dct.items())`.
Keys of one primitive type sort within that type; mixing strings and
integers makes `sorted` raise `TypeError`. -/
def sortEntries (es : List (JKey × α)) : Except PersistError (List (JKey × α)) :=
  if es.all (fun p => p.1 matches .str _) then .ok (sortLe keyLeStr es)
  else if es.all (fun p => p.1 matches .int _) then .ok (sortLe keyLeInt es)
  else .error .unorderableKeys

/-- Wrap serialized items into a JSON aggregate: opening token, each item
on its own line indented one level deeper, items separated by commas,
closing token indented at the current level. -/
def wrapItems (openTok closeTok : String) (items : List String) (ind : Nat) : String :=
  openTok ++ "\n" ++ String.intercalate ",\n" (items.map (fun s => indentStr (ind + 1) ++ s))
    ++ "\n" ++ indentStr ind ++ closeTok

/-- One `"key": value` item of a mapping. -/
def entryItem (p : JKey × String) : String :=
  jsonQuote (keyToString p.1) ++ ": " ++ p.2

mutual

/-- The text `json.dumps(v, cls=NumpyEncoder, sort_keys=True, indent=4)`
produces for `v` at nesting depth `ind`, without the leading indentation
(the caller supplies it): primitives print directly, `NumpyEncoder.default`
rewrites `np.ndarray` to its element list, `np.bool_` to `bool` and a
complex number to its real component, sequences and mappings nest one
level deeper with items separated by `,\n`, mapping entries are emitted
sorted by key with keys coerced to strings, and a value of any other type
raises `TypeError` naming the type. The entries of a mapping are
serialized here in insertion order and the resulting items then stably
sorted by key; `json.dumps` sorts the entries first, but per-entry
serialization does not depend on its neighbours, so the emitted text is
the same. -/
def serVal : ResultValue → Nat → Except PersistError String
  | .null, _ => .ok "null"
  | .bool b, _ => .ok (if b then "true" else "false")
  | .num n, _ => .ok (toString n)
  | .str s, _ => .ok (jsonQuote s)
  | .complex re _, _ => .ok (toString re)
  | .npBool b, _ => .ok (if b then "true" else "false")
  | .ndarray [], _ => .ok "[]"
  | .ndarray (v :: vs), ind => do
      .ok (wrapItems "[" "]" (← serList (v :: vs) (ind + 1)) ind)
  | .list [], _ => .ok "[]"
  | .list (v :: vs), ind => do
      .ok (wrapItems "[" "]" (← serList (v :: vs) (ind + 1)) ind)
  | .dict [], _ => .ok "\x7b\x7d"
  | .dict (e :: es), ind =>
      if (e :: es).all (fun p => p.1 matches .str _) then do
        let items ← serKV (e :: es) (ind + 1)
        .ok (wrapItems "\x7b" "\x7d" ((sortLe keyLeStr items).map entryItem) ind)
      else if (e :: es).all (fun p => p.1 matches .int _) then do
        let items ← serKV (e :: es) (ind + 1)
        .ok (wrapItems "\x7b" "\x7d" ((sortLe keyLeInt items).map entryItem) ind)
      else .error .unorderableKeys
  | .other t, _ => .error (.unsupportedValueKind t)

/-- The serialized items of a sequence, in order. -/
def serList : List ResultValue → Nat → Except PersistError (List String)
  | [], _ => .ok []
  | v :: vs, ind => do .ok ((← serVal v ind) :: (← serList vs ind))

/-- The serialized values of a mapping's entries, in insertion order,
each paired with its original key. -/
def serKV : List (JKey × ResultValue) → Nat → Except PersistError (List (JKey × String))
  | [], _ => .ok []
  | (k, v) :: es, ind => do .ok ((k, ← serVal v ind) :: (← serKV es ind))

end

/-- The record the script persists: `output_dict` with the list of
available backend names, the user email and the raw execution result
(lines 107-111 of the source). -/
structure OutputRecord where
  backends : List String
  email : String
  result : ResultValue

/-- The entries of `output_dict` in source (insertion) order. -/
def recordEntries (r : OutputRecord) : List (JKey × ResultValue) :=
  [(.str "backends", .list (r.backends.map .str)),
   (.str "email", .str r.email),
   (.str "result", r.result)]

/-- `formatted_json`: the full serialized text of the record (line 113
of the source). -/
def serializeRecord (r : OutputRecord) : Except PersistError String :=
  serVal (.dict (recordEntries r)) 0

/-- The output sink: whether it accepts a write, and the text it holds. -/
structure Sink where
  writable : Bool
  content : Option String

/-- The persistence pipeline of lines 113-117: serialize first
(`json.dumps`); only when that succeeds open the sink and write the full
text in one scoped write; an unwritable sink raises and leaves the sink
unchanged. Returns the final sink state and the error, if any. -/
def persist (r : OutputRecord) (s : Sink) : Sink × Option PersistError :=
  match serializeRecord r with
  | .error e => (s, some e)
  | .ok text =>
      if s.writable then ({ s with content := some text }, none)
      else (s, some .sinkWriteError)

/-- The end-to-end example record of the spec: one available backend,
default email, the Bell-state counts. -/
def exRecord : OutputRecord :=
  { backends := ["local_qasm_simulator"], email := "N/A",
    result := .dict [(.str "00", .num 5), (.str "11", .num 5)] }

/-- The exact text the spec displays for the example record. -/
def exText : String :=
  "\x7b\n    \"backends\": [\n        \"local_qasm_simulator\"\n    ],\n    \"email\": \"N/A\",\n    \"result\": \x7b\n        \"00\": 5,\n        \"11\": 5\n    \x7d\n\x7d"

example : normalize (.complex 3 4) = .ok (.num 3) := rfl

example : normalize (.ndarray [.npBool true, .num 2]) = .ok (.list [.bool true, .num 2]) := rfl

example : normalize (.dict [(.int 7, .num 1)]) = .ok (.dict [("7", .num 1)]) := rfl

example : normalize (.list [.other "JobResult"]) = .error (.unsupportedValueKind "JobResult") := rfl

theorem exceptBind_ok (a : α) (f : α → Except ε β) :
    (Except.ok a >>= f : Except ε β) = f a := rfl

theorem exceptBind_error (e : ε) (f : α → Except ε β) :
    (Except.error e >>= f : Except ε β) = .error e := rfl

mutual

theorem normalize_total : ∀ v, supported v = true → ∃ n, normalize v = .ok n
  | .null, _ => ⟨.null, rfl⟩
  | .bool b, _ => ⟨.bool b, rfl⟩
  | .num n, _ => ⟨.num n, rfl⟩
  | .str s, _ => ⟨.str s, rfl⟩
  | .complex re _, _ => ⟨.num re, rfl⟩
  | .npBool b, _ => ⟨.bool b, rfl⟩
  | .ndarray es, h => by
      obtain ⟨ns, hns⟩ := normalize_total_list es (by simpa [supported] using h)
      exact ⟨.list ns, by simp [normalize, hns, exceptBind_ok]⟩
  | .list es, h => by
      obtain ⟨ns, hns⟩ := normalize_total_list es (by simpa [supported] using h)
      exact ⟨.list ns, by simp [normalize, hns, exceptBind_ok]⟩
  | .dict es, h => by
      obtain ⟨ns, hns⟩ := normalize_total_entries es (by simpa [supported] using h)
      exact ⟨.dict ns, by simp [normalize, hns, exceptBind_ok]⟩
  | .other t, h => by simp [supported] at h

theorem normalize_total_list : ∀ vs, supportedList vs = true → ∃ ns, normalizeList vs = .ok ns
  | [], _ => ⟨[], rfl⟩
  | v :: vs, h => by
      rw [supportedList, Bool.and_eq_true] at h
      obtain ⟨n, hn⟩ := normalize_total v h.1
      obtain ⟨ns, hns⟩ := normalize_total_list vs h.2
      exact ⟨n :: ns, by simp [normalizeList, hn, hns, exceptBind_ok]⟩

theorem normalize_total_entries : ∀ es, supportedEntries es = true → ∃ ns, normalizeEntries es = .ok ns
  | [], _ => ⟨[], rfl⟩
  | (k, v) :: es, h => by
      rw [supportedEntries, Bool.and_eq_true] at h
      obtain ⟨n, hn⟩ := normalize_total v h.1
      obtain ⟨ns, hns⟩ := normalize_total_entries es h.2
      exact ⟨(keyToString k, n) :: ns, by simp [normalizeEntries, hn, hns, exceptBind_ok]⟩

end

/-- C1: on every value built only from the supported constructors
(numeric scalars, booleans, complex numbers, strings, null, numeric
arrays, sequences and mappings — no node of an unhandled type),
`normalize` terminates and returns a normalized value. -/
theorem normalize_total_on_supported (v : ResultValue) (h : supported v = true) :
    ∃ n, normalize v = .ok n :=
  normalize_total v h

theorem normalize_total_on_supported_witness :
    supported (.dict [(.str "counts", .ndarray [.complex 3 4, .npBool true, .num 7])]) = true ∧
    ∃ n, normalize (.dict [(.str "counts", .ndarray [.complex 3 4, .npBool true, .num 7])]) = .ok n :=
  ⟨rfl, normalize_total_on_supported _ rfl⟩

/-- C2: a complex number normalizes to its real component, the imaginary
component is discarded; in particular `3 + 4i` normalizes to `3`. -/
theorem normalize_complex_real_part (re im : Int) :
    normalize (.complex re im) = .ok (.num re) ∧ normalize (.complex 3 4) = .ok (.num 3) :=
  ⟨rfl, rfl⟩

/-- C7: a backend-specific boolean wrapper (`np.bool_`) normalizes to the
primitive boolean with the same truth value. -/
theorem normalize_npBool_unwraps (b : Bool) :
    normalize (.npBool b) = .ok (.bool b) :=
  rfl

theorem normalizeList_ok_iff (es : List ResultValue) (ns : List NormalizedValue) :
    normalizeList es = .ok ns ↔ List.Forall₂ (fun e n => normalize e = .ok n) es ns := by
  induction es generalizing ns with
  | nil =>
      cases ns <;> simp [normalizeList]
  | cons v vs ih =>
      constructor
      · intro h
        cases hv : normalize v with
        | error e => simp [normalizeList, hv, exceptBind_error] at h
        | ok n' =>
            cases hvs : normalizeList vs with
            | error e => simp [normalizeList, hv, hvs, exceptBind_ok, exceptBind_error] at h
            | ok ns' =>
                simp [normalizeList, hv, hvs, exceptBind_ok] at h
                subst h
                exact List.Forall₂.cons hv ((ih ns').mp hvs)
      · intro h
        cases h with
        | cons hv hf =>
            have hvs := (ih _).mpr hf
            simp [normalizeList, hv, hvs, exceptBind_ok]

/-- C6: a numeric array normalizes exactly as the ordered sequence of its
elements does; whenever it normalizes successfully the outcome is the
sequence of the normalized elements, in order, each element normalized
recursively. -/
theorem normalize_ndarray_elementwise (es : List ResultValue) :
    normalize (.ndarray es) = normalize (.list es) ∧
    ∀ n, normalize (.ndarray es) = .ok n →
      ∃ ns, n = .list ns ∧ List.Forall₂ (fun e m => normalize e = .ok m) es ns := by
  refine ⟨by simp [normalize], ?_⟩
  intro n h
  cases hes : normalizeList es with
  | error e => simp [normalize, hes, exceptBind_error] at h
  | ok ns =>
      refine ⟨ns, ?_, (normalizeList_ok_iff es ns).mp hes⟩
      simp [normalize, hes, exceptBind_ok] at h
      exact h.symm

theorem normalize_ndarray_elementwise_witness :
    ∃ ns, NormalizedValue.list [.num 3, .bool true] = .list ns ∧
      List.Forall₂ (fun e m => normalize e = .ok m) [ResultValue.complex 3 4, .npBool true] ns :=
  (normalize_ndarray_elementwise [.complex 3 4, .npBool true]).2 (.list [.num 3, .bool true]) rfl

mutual

theorem normalize_ofNorm : ∀ n, normalize (ofNorm n) = .ok n
  | .null => rfl
  | .bool _ => rfl
  | .num _ => rfl
  | .str _ => rfl
  | .list es => by
      simp [ofNorm, normalize, normalize_ofNorm_list es, exceptBind_ok]
  | .dict es => by
      simp [ofNorm, normalize, normalize_ofNorm_entries es, exceptBind_ok]

theorem normalize_ofNorm_list : ∀ ns, normalizeList (ofNormList ns) = .ok ns
  | [] => rfl
  | n :: ns => by
      simp [ofNormList, normalizeList, normalize_ofNorm n, normalize_ofNorm_list ns, exceptBind_ok]

theorem normalize_ofNorm_entries : ∀ ns, normalizeEntries (ofNormEntries ns) = .ok ns
  | [] => rfl
  | (k, n) :: ns => by
      simp [ofNormEntries, normalizeEntries, normalize_ofNorm n, normalize_ofNorm_entries ns,
            exceptBind_ok, keyToString]

end

/-- C8: already-normalized values are fixed points of `normalize` (a
normalized value, reread as an input, normalizes to itself without
error), hence a second pass after any successful pass changes nothing:
`normalize (normalize v) = normalize v` for every input `v` that
normalizes successfully. -/
theorem normalize_idempotent :
    (∀ n, normalize (ofNorm n) = .ok n) ∧
    ∀ v n, normalize v = .ok n → normalize (ofNorm n) = normalize v :=
  ⟨normalize_ofNorm, fun _ n h => by rw [normalize_ofNorm n, h]⟩

theorem normalize_idempotent_witness :
    normalize (.ndarray [.complex 3 4]) = .ok (.list [.num 3]) ∧
    normalize (ofNorm (.list [.num 3])) = normalize (.ndarray [.complex 3 4]) :=
  ⟨rfl, normalize_idempotent.2 (.ndarray [.complex 3 4]) (.list [.num 3]) rfl⟩

/-- C4: serialization is deterministic — two output records holding the
same backends, email and result serialize to the same text, down to the
byte. -/
theorem serialize_deterministic (r₁ r₂ : OutputRecord)
    (hb : r₁.backends = r₂.backends) (he : r₁.email = r₂.email)
    (hr : r₁.result = r₂.result) :
    serializeRecord r₁ = serializeRecord r₂ := by
  cases r₁
  cases r₂
  simp only at hb he hr
  subst hb he hr
  rfl

theorem serialize_deterministic_witness :
    exRecord.backends = exRecord.backends ∧ exRecord.email = exRecord.email ∧
    exRecord.result = exRecord.result ∧ serializeRecord exRecord = serializeRecord exRecord :=
  ⟨rfl, rfl, rfl, serialize_deterministic exRecord exRecord rfl rfl rfl⟩

/-- C5: the serialized output has exactly the three top-level keys
`backends`, `email`, `result`, already in lexicographic order for every
record (`sorted` leaves them in place), and the spec's example record
serializes to exactly the spec's displayed text, 4-space indentation and
all, with nothing after the closing brace. -/
theorem serialize_example_exact :
    (∀ r : OutputRecord,
      sortEntries (recordEntries r) = .ok (recordEntries r) ∧
      (recordEntries r).map (fun p => keyToString p.1) = ["backends", "email", "result"]) ∧
    serializeRecord exRecord = .ok exText :=
  ⟨fun _ => ⟨rfl, rfl⟩, rfl⟩

/-- C9: on an unwritable sink the persist step never silently succeeds:
it reports an error and leaves the sink unchanged, and whenever the
record serializes, that error is precisely the sink-write error. -/
theorem persist_unwritable_fails (r : OutputRecord) (s : Sink)
    (h : s.writable = false) :
    (persist r s).1 = s ∧ (persist r s).2 ≠ none ∧
    ∀ text, serializeRecord r = .ok text → persist r s = (s, some .sinkWriteError) := by
  refine ⟨?_, ?_, ?_⟩ <;> cases hs : serializeRecord r <;> simp [persist, hs, h]

theorem persist_unwritable_fails_witness :
    ((false : Bool) = false) ∧
    persist exRecord { writable := false, content := none } =
      ({ writable := false, content := none }, some .sinkWriteError) :=
  ⟨rfl, (persist_unwritable_fails exRecord { writable := false, content := none } rfl).2.2 exText rfl⟩

theorem normalizeEntries_keys (es : List (JKey × ResultValue))
    (h : ∀ p ∈ es, ∃ n, normalize p.2 = .ok n) :
    ∃ l, normalizeEntries es = .ok l ∧ l.map Prod.fst = es.map (fun p => keyToString p.1) := by
  induction es with
  | nil => exact ⟨[], rfl, rfl⟩
  | cons p es ih =>
      obtain ⟨l, hl, hk⟩ := ih (fun q hq => h q (by simp [hq]))
      obtain ⟨n, hn⟩ := h p (by simp)
      cases p with
      | mk k v =>
          exact ⟨(keyToString k, n) :: l,
            by simp only at hn; simp [normalizeEntries, hn, hl, exceptBind_ok],
            by simp [hk]⟩

theorem serKV_ok_of_vals (es : List (JKey × ResultValue)) (ind : Nat)
    (h : ∀ p ∈ es, ∃ s, serVal p.2 ind = .ok s) :
    ∃ l, serKV es ind = .ok l := by
  induction es with
  | nil => exact ⟨[], rfl⟩
  | cons p es ih =>
      obtain ⟨l, hl⟩ := ih (fun q hq => h q (by simp [hq]))
      obtain ⟨s, hs⟩ := h p (by simp)
      cases p with
      | mk k v =>
          exact ⟨(k, s) :: l, by simp only at hs; simp [serKV, hs, hl, exceptBind_ok]⟩

mutual

theorem serVal_wk : ∀ v ind, wellKeys v = true →
    (supported v = true → ∃ s, serVal v ind = .ok s) ∧
    (supported v = false →
      ∃ t, serVal v ind = .error (.unsupportedValueKind t) ∧ occursOther v t = true)
  | .null, _, _ => ⟨fun _ => ⟨"null", rfl⟩, fun hs => by simp [supported] at hs⟩
  | .bool b, _, _ => ⟨fun _ => ⟨_, rfl⟩, fun hs => by simp [supported] at hs⟩
  | .num n, _, _ => ⟨fun _ => ⟨_, rfl⟩, fun hs => by simp [supported] at hs⟩
  | .str s, _, _ => ⟨fun _ => ⟨_, rfl⟩, fun hs => by simp [supported] at hs⟩
  | .complex re im, _, _ => ⟨fun _ => ⟨_, rfl⟩, fun hs => by simp [supported] at hs⟩
  | .npBool b, _, _ => ⟨fun _ => ⟨_, rfl⟩, fun hs => by simp [supported] at hs⟩
  | .other t, _, _ =>
      ⟨fun hs => by simp [supported] at hs, fun _ => ⟨t, rfl, by simp [occursOther]⟩⟩
  | .ndarray [], _, _ => ⟨fun _ => ⟨"[]", rfl⟩, fun hs => by simp [supported, supportedList] at hs⟩
  | .ndarray (v :: vs), ind, h => by
      have hwk : wellKeysList (v :: vs) = true := by simpa [wellKeys] using h
      have hl := serList_wk (v :: vs) (ind + 1) hwk
      constructor
      · intro hs
        obtain ⟨l, hsl⟩ := hl.1 (by simpa [supported] using hs)
        exact ⟨wrapItems "[" "]" l ind, by simp [serVal, hsl, exceptBind_ok]⟩
      · intro hs
        obtain ⟨t, hsl, ho⟩ := hl.2 (by simpa [supported] using hs)
        exact ⟨t, by simp [serVal, hsl, exceptBind_error], by simpa [occursOther] using ho⟩
  | .list [], _, _ => ⟨fun _ => ⟨"[]", rfl⟩, fun hs => by simp [supported, supportedList] at hs⟩
  | .list (v :: vs), ind, h => by
      have hwk : wellKeysList (v :: vs) = true := by simpa [wellKeys] using h
      have hl := serList_wk (v :: vs) (ind + 1) hwk
      constructor
      · intro hs
        obtain ⟨l, hsl⟩ := hl.1 (by simpa [supported] using hs)
        exact ⟨wrapItems "[" "]" l ind, by simp [serVal, hsl, exceptBind_ok]⟩
      · intro hs
        obtain ⟨t, hsl, ho⟩ := hl.2 (by simpa [supported] using hs)
        exact ⟨t, by simp [serVal, hsl, exceptBind_error], by simpa [occursOther] using ho⟩
  | .dict [], _, _ => ⟨fun _ => ⟨"\x7b\x7d", rfl⟩, fun hs => by simp [supported, supportedEntries] at hs⟩
  | .dict (e :: es), ind, h => by
      rw [wellKeys, Bool.and_eq_true] at h
      have hkv := serKV_wk (e :: es) (ind + 1) h.2
      constructor
      · intro hs
        obtain ⟨l, hsl⟩ := hkv.1 (by simpa [supported] using hs)
        exact ⟨wrapItems "\x7b" "\x7d" ((sortLe keyLeStr l).map entryItem) ind,
          by simp [serVal, h.1, hsl, exceptBind_ok]⟩
      · intro hs
        obtain ⟨t, hsl, ho⟩ := hkv.2 (by simpa [supported] using hs)
        exact ⟨t, by simp [serVal, h.1, hsl, exceptBind_error], by simpa [occursOther] using ho⟩

theorem serList_wk : ∀ vs ind, wellKeysList vs = true →
    (supportedList vs = true → ∃ l, serList vs ind = .ok l) ∧
    (supportedList vs = false →
      ∃ t, serList vs ind = .error (.unsupportedValueKind t) ∧ occursOtherList vs t = true)
  | [], _, _ => ⟨fun _ => ⟨[], rfl⟩, fun hs => by simp [supportedList] at hs⟩
  | v :: vs, ind, h => by
      rw [wellKeysList, Bool.and_eq_true] at h
      have hv := serVal_wk v ind h.1
      have hvs := serList_wk vs ind h.2
      constructor
      · intro hs
        rw [supportedList, Bool.and_eq_true] at hs
        obtain ⟨s, h1⟩ := hv.1 hs.1
        obtain ⟨l, h2⟩ := hvs.1 hs.2
        exact ⟨s :: l, by simp [serList, h1, h2, exceptBind_ok]⟩
      · intro hs
        cases hsv : supported v with
        | false =>
            obtain ⟨t, h1, ho⟩ := hv.2 hsv
            exact ⟨t, by simp [serList, h1, exceptBind_error], by simp [occursOtherList, ho]⟩
        | true =>
            have hsvs : supportedList vs = false := by
              rw [supportedList, hsv] at hs
              simpa using hs
            obtain ⟨s, h1⟩ := hv.1 hsv
            obtain ⟨t, h2, ho⟩ := hvs.2 hsvs
            exact ⟨t, by simp [serList, h1, h2, exceptBind_ok, exceptBind_error],
              by simp [occursOtherList, ho]⟩

theorem serKV_wk : ∀ es ind, wellKeysEntries es = true →
    (supportedEntries es = true → ∃ l, serKV es ind = .ok l) ∧
    (supportedEntries es = false →
      ∃ t, serKV es ind = .error (.unsupportedValueKind t) ∧ occursOtherEntries es t = true)
  | [], _, _ => ⟨fun _ => ⟨[], rfl⟩, fun hs => by simp [supportedEntries] at hs⟩
  | (k, v) :: es, ind, h => by
      rw [wellKeysEntries, Bool.and_eq_true] at h
      have hv := serVal_wk v ind h.1
      have hes := serKV_wk es ind h.2
      constructor
      · intro hs
        rw [supportedEntries, Bool.and_eq_true] at hs
        obtain ⟨s, h1⟩ := hv.1 hs.1
        obtain ⟨l, h2⟩ := hes.1 hs.2
        exact ⟨(k, s) :: l, by simp [serKV, h1, h2, exceptBind_ok]⟩
      · intro hs
        cases hsv : supported v with
        | false =>
            obtain ⟨t, h1, ho⟩ := hv.2 hsv
            exact ⟨t, by simp [serKV, h1, exceptBind_error], by simp [occursOtherEntries, ho]⟩
        | true =>
            have hses : supportedEntries es = false := by
              rw [supportedEntries, hsv] at hs
              simpa using hs
            obtain ⟨s, h1⟩ := hv.1 hsv
            obtain ⟨t, h2, ho⟩ := hes.2 hses
            exact ⟨t, by simp [serKV, h1, h2, exceptBind_ok, exceptBind_error],
              by simp [occursOtherEntries, ho]⟩

end

theorem supportedList_mapStr (bs : List String) :
    supportedList (bs.map ResultValue.str) = true := by
  induction bs with
  | nil => rfl
  | cons b bs ih => simp [supportedList, supported, ih]

theorem wellKeysList_mapStr (bs : List String) :
    wellKeysList (bs.map ResultValue.str) = true := by
  induction bs with
  | nil => rfl
  | cons b bs ih => simp [wellKeysList, wellKeys, ih]

theorem occursOtherList_mapStr (bs : List String) (t : String) :
    occursOtherList (bs.map ResultValue.str) t = false := by
  induction bs with
  | nil => rfl
  | cons b bs ih => simp [occursOtherList, occursOther, ih]

theorem record_wellKeys (r : OutputRecord) (h : wellKeys r.result = true) :
    wellKeys (.dict (recordEntries r)) = true := by
  simp [wellKeys, recordEntries, wellKeysEntries, wellKeysList_mapStr, h]

theorem record_unsupported (r : OutputRecord) (h : supported r.result = false) :
    supported (.dict (recordEntries r)) = false := by
  simp [supported, recordEntries, supportedEntries, supportedList_mapStr, h]

/-- C3: a record whose result contains a value of an unhandled type (all
its mappings string-keyed, as the ResultValue data model prescribes)
makes the pipeline fail with the unsupported-value error naming a type
that indeed occurs in the result, and the sink is left exactly as it was:
serialization happens before the write, so the write never starts. -/
theorem persist_unsupported_no_output (r : OutputRecord) (s : Sink)
    (hw : wellKeys r.result = true) (hu : supported r.result = false) :
    ∃ t, persist r s = (s, some (.unsupportedValueKind t)) ∧ occursOther r.result t = true := by
  obtain ⟨t, ht, ho⟩ :=
    (serVal_wk (.dict (recordEntries r)) 0 (record_wellKeys r hw)).2 (record_unsupported r hu)
  refine ⟨t, ?_, ?_⟩
  · simp [persist, serializeRecord, ht]
  · simpa [occursOther, recordEntries, occursOtherEntries, occursOtherList_mapStr] using ho

theorem persist_unsupported_no_output_witness :
    wellKeys (ResultValue.other "JobResult") = true ∧
    supported (ResultValue.other "JobResult") = false ∧
    ∃ t, persist { backends := ["local_qasm_simulator"], email := "N/A",
                   result := .other "JobResult" } { writable := true, content := none } =
          ({ writable := true, content := none }, some (.unsupportedValueKind t)) ∧
        occursOther (.other "JobResult") t = true :=
  ⟨rfl, rfl,
    persist_unsupported_no_output
      { backends := ["local_qasm_simulator"], email := "N/A", result := .other "JobResult" }
      { writable := true, content := none } rfl rfl⟩

/-- C10: a mapping whose keys are all integers is accepted by the
serializer — it does not fail with the unsupported-value error (it
serializes successfully whenever its values do), and each key appears in
the normalized output coerced to its decimal string representation, in
entry order. -/
theorem intKeys_coerced_to_decimal (entries : List (Int × ResultValue)) (ind : Nat)
    (h : ∀ p ∈ entries, supported p.2 = true ∧ wellKeys p.2 = true) :
    (∃ s, serVal (.dict (entries.map (fun p => (.int p.1, p.2)))) ind = .ok s) ∧
    ∃ l, normalize (.dict (entries.map (fun p => (.int p.1, p.2)))) = .ok (.dict l) ∧
      l.map Prod.fst = entries.map (fun p => toString p.1) := by
  constructor
  · cases hes : entries.map (fun p => (JKey.int p.1, p.2)) with
    | nil => exact ⟨"\x7b\x7d", rfl⟩
    | cons e es =>
        have hvals : ∀ p ∈ e :: es, ∃ s, serVal p.2 (ind + 1) = .ok s := by
          intro p hp
          rw [← hes] at hp
          simp only [List.mem_map] at hp
          obtain ⟨q, hq, rfl⟩ := hp
          exact (serVal_wk q.2 (ind + 1) (h q hq).2).1 (h q hq).1
        obtain ⟨l, hl⟩ := serKV_ok_of_vals (e :: es) (ind + 1) hvals
        have hstr : ((e :: es).all (fun p => p.1 matches .str _)) = false := by
          rcases entries with _ | ⟨p, ps⟩
          · simp at hes
          · rw [List.map_cons] at hes
            injection hes with he _
            subst he
            simp [List.all_cons]
        have hint : ((e :: es).all (fun p => p.1 matches .int _)) = true := by
          rw [← hes]
          refine List.all_eq_true.mpr ?_
          intro x hx
          simp only [List.mem_map] at hx
          obtain ⟨q, _, rfl⟩ := hx
          rfl
        exact ⟨wrapItems "\x7b" "\x7d" ((sortLe keyLeInt l).map entryItem) ind,
          by simp [serVal, hstr, hint, hl, exceptBind_ok]⟩
  · have hvals : ∀ p ∈ entries.map (fun p => (JKey.int p.1, p.2)), ∃ n, normalize p.2 = .ok n := by
      intro p hp
      simp only [List.mem_map] at hp
      obtain ⟨q, hq, rfl⟩ := hp
      exact normalize_total q.2 (h q hq).1
    obtain ⟨l, hl, hk⟩ := normalizeEntries_keys _ hvals
    refine ⟨l, by simp [normalize, hl, exceptBind_ok], ?_⟩
    rw [hk, List.map_map]
    rfl

theorem intKeys_coerced_to_decimal_witness :
    (∀ p ∈ [((10 : Int), ResultValue.num 1), ((2 : Int), ResultValue.num 0)],
      supported p.2 = true ∧ wellKeys p.2 = true) ∧
    (∃ s, serVal (.dict ([((10 : Int), ResultValue.num 1), ((2 : Int), ResultValue.num 0)].map
        (fun p => (.int p.1, p.2)))) 0 = .ok s) ∧
    ∃ l, normalize (.dict ([((10 : Int), ResultValue.num 1), ((2 : Int), ResultValue.num 0)].map
        (fun p => (.int p.1, p.2)))) = .ok (.dict l) ∧
      l.map Prod.fst = [((10 : Int), ResultValue.num 1), ((2 : Int), ResultValue.num 0)].map
        (fun p => toString p.1) :=
  ⟨by decide,
    intKeys_coerced_to_decimal [((10 : Int), .num 1), ((2 : Int), .num 0)] 0 (by decide)⟩

end CoinFlip
